import Mathlib

/-!
# Verification of the Swift JIT REPL incremental compile-link-execute-undo kernel

A shallow embedding of `src/swift_jit_repl/SwiftJITREPL.cpp` /
`SwiftJITREPL.h` (namespace `SwiftJITREPL`), together with theorems
settling the specification claims about it.

Modelling conventions:

* The external front-end / codegen / JIT services (Swift `performSema`,
  `CompilerInstance::setup`, IR lowering, `LLJIT::addIRModule`,
  `LLJIT::initialize`, `ResourceTracker::remove`) are out of scope per the
  spec; their outcomes are supplied by an `Oracle` of boolean functions,
  indexed by values available at the call site (the parser input counter,
  the PTU identity, the tracker identity).
* C++ object identity (the `&PTU` pointers keying the executor's
  `std::map`, ORC resource trackers, LLVM modules) is modelled by `Nat`
  identities minted from counters; identities are never reused, which
  abstracts from malloc address reuse.
* `std::map<const PTU*, ResourceTrackerSP>` is an association list sorted
  by key; a null `ResourceTrackerSP` value is `Option.none` in the value
  position (`operator[]` on an absent key inserts such a null entry).
* `std::string` manipulation in the value-printing transform is modelled
  on `List Char`; the `std::out_of_range` exception thrown by
  `substr(pos - 6, 6)` when `pos < 6` (size_t underflow) is the `none`
  result of the transform.
* Statistics time fields (`double total_compilation_time_ms` etc.) are
  floating point and not modelled; only the three integer counters are.
-/

namespace SwiftJITREPLModel

/-! ## String search and insertion (std::string::find / insert / substr) -/

/-- `matchesAt s pat` is true when `pat` occurs at the head of `s`. -/
def matchesAt : List Char → List Char → Bool
  | _, [] => true
  | [], _ :: _ => false
  | c :: s, d :: p => c == d && matchesAt s p

/-- Position of the first occurrence of `pat` in `s`, if any. -/
def findAux (pat : List Char) : List Char → Option Nat
  | [] => if pat = [] then some 0 else none
  | c :: rest =>
    if matchesAt (c :: rest) pat then some 0 else (findAux pat rest).map (· + 1)

/-- `std::string::find(pat, pos)`: first occurrence of `pat` in `s` at
position `≥ pos`; `none` models `npos`. -/
def strFind (s pat : List Char) (pos : Nat) : Option Nat :=
  if pos ≤ s.length then (findAux pat (s.drop pos)).map (· + pos) else none

/-- `std::string::insert(p, t)` for `p ≤ s.length`. -/
def insertAt (s : List Char) (p : Nat) (t : List Char) : List Char :=
  s.take p ++ t ++ s.drop p

theorem matchesAt_length {s pat : List Char} (h : matchesAt s pat = true) :
    pat.length ≤ s.length := by
  induction pat generalizing s with
  | nil => simp
  | cons d p ih =>
    cases s with
    | nil => simp [matchesAt] at h
    | cons c rest =>
      simp only [matchesAt, Bool.and_eq_true] at h
      simpa using ih h.2

theorem findAux_spec {pat s : List Char} {i : Nat} (h : findAux pat s = some i) :
    i + pat.length ≤ s.length := by
  induction s generalizing i with
  | nil =>
    simp only [findAux] at h
    split at h
    · simp_all
    · simp at h
  | cons c rest ih =>
    simp only [findAux] at h
    split at h
    · rename_i hm
      have := matchesAt_length hm
      simp only [Option.some.injEq] at h
      omega
    · simp only [Option.map_eq_some'] at h
      obtain ⟨j, hj, rfl⟩ := h
      have := ih hj
      simp only [List.length_cons]
      omega

theorem strFind_spec {s pat : List Char} {pos i : Nat}
    (h : strFind s pat pos = some i) : pos ≤ i ∧ i + pat.length ≤ s.length := by
  unfold strFind at h
  split at h
  · simp only [Option.map_eq_some'] at h
    obtain ⟨j, hj, rfl⟩ := h
    have := findAux_spec hj
    have := List.length_drop pos s
    omega
  · simp at h

theorem insertAt_length {s t : List Char} {p : Nat} (h : p ≤ s.length) :
    (insertAt s p t).length = s.length + t.length := by
  simp only [insertAt, List.length_append, List.length_take, List.length_drop]
  omega

/-! ## The value-printing transform

`InProcessSwiftRuntimeInterfaceBuilder::transformForValuePrinting`
(SwiftJITREPL.cpp lines 288-322): one `while` loop per keyword inserting
`"public "` in front of `"let "` / `"var "` occurrences not already
preceded by `"public"`, then a trailing newline.  The loop is modelled
with an explicit fuel counter; `publicizeCore_fuel_irrelevant` below shows
the chosen fuel (`s.length + 8`, an upper bound on the loop measure,
which shrinks by at least 4 each iteration) makes the model exact. -/

def pubKeyword : List Char := ['p', 'u', 'b', 'l', 'i', 'c']

def pubInsert : List Char := ['p', 'u', 'b', 'l', 'i', 'c', ' ']

/-- One keyword loop of `transformForValuePrinting`.  `none` models the
`std::out_of_range` exception from `result.substr(pos - 6, 6)` when a
match is found at position `1 ≤ pos ≤ 5` (size_t underflow of `pos - 6`). -/
def publicizeCore : Nat → List Char → List Char → Nat → Option (List Char)
  | 0, _, s, _ => some s
  | fuel + 1, pat, s, pos =>
    match strFind s pat pos with
    | none => some s
    | some p =>
      if p = 0 then publicizeCore fuel pat (insertAt s 0 pubInsert) 11
      else if p < 6 then none
      else if (s.drop (p - 6)).take 6 ≠ pubKeyword then
        publicizeCore fuel pat (insertAt s p pubInsert) (p + 11)
      else publicizeCore fuel pat s (p + 4)

/-- The loop measure `s.length + 8 - pos` shrinks by at least 4 per
iteration, so any fuel at least the measure computes the loop's limit:
the fuel-exhaustion default of `publicizeCore` is never reached. -/
theorem publicizeCore_fuel_irrelevant :
    ∀ f1 f2 pat s pos, s.length + 8 - pos ≤ f1 → s.length + 8 - pos ≤ f2 →
      publicizeCore f1 pat s pos = publicizeCore f2 pat s pos := by
  intro f1
  induction f1 using Nat.strong_induction_on with
  | _ f1 ih =>
    intro f2 pat s pos h1 h2
    rcases f1 with _ | f1
    · have hnone : strFind s pat pos = none := by
        unfold strFind
        rw [if_neg (by omega)]
      rcases f2 with _ | f2
      · rfl
      · simp only [publicizeCore, hnone]
    · rcases f2 with _ | f2
      · have hnone : strFind s pat pos = none := by
          unfold strFind
          rw [if_neg (by omega)]
        simp only [publicizeCore, hnone]
      · simp only [publicizeCore]
        split
        · rfl
        · rename_i p hf
          obtain ⟨hpos, hlen⟩ := strFind_spec hf
          have hps : p ≤ s.length := le_trans (Nat.le_add_right _ _) hlen
          split
          · rename_i hp0
            subst hp0
            have hl : (insertAt s 0 pubInsert).length = s.length + 7 :=
              insertAt_length (Nat.zero_le _)
            exact ih f1 (by omega) f2 _ _ _ (by omega) (by omega)
          · split
            · rfl
            · rename_i hp0 hp6
              split
              · have hl : (insertAt s p pubInsert).length = s.length + 7 :=
                  insertAt_length hps
                exact ih f1 (by omega) f2 _ _ _ (by omega) (by omega)
              · exact ih f1 (by omega) f2 _ _ _ (by omega) (by omega)

/-- `transformForValuePrinting` (the transformer installed by
`InProcessSwiftRuntimeInterfaceBuilder`): publicize `"let "`, then
`"var "`, then append a newline.  `none` models a thrown
`std::out_of_range`. -/
def transformForValuePrinting (code : String) : Option String :=
  match publicizeCore (code.data.length + 8) "let ".data code.data 0 with
  | none => none
  | some r1 =>
    match publicizeCore (r1.length + 8) "var ".data r1 0 with
    | none => none
    | some r2 => some (List.asString (r2 ++ ['\n']))

/-- `SwiftInterpreter::synthesizeExpr` delegates to the runtime interface
builder's print-value transformer. -/
def synthesizeExpr (code : String) : Option String :=
  transformForValuePrinting code

/-! ## `std::map<const SwiftPartialTranslationUnit*, ResourceTrackerSP>`

Sorted association list from PTU identity to tracker value; the value
`none` is a null `ResourceTrackerSP` (as left by `operator[]` on an
absent key, or by moving a tracker out). -/

/-- `map.find(k)`: `none` when no entry exists, `some v` for an entry
holding the (possibly null) smart pointer `v`. -/
def mapFind : List (Nat × Option Nat) → Nat → Option (Option Nat)
  | [], _ => none
  | (k, v) :: rest, key => if key = k then some v else mapFind rest key

/-- `map[k] = v` (insert or assign), keeping keys sorted. -/
def mapSet : List (Nat × Option Nat) → Nat → Option Nat → List (Nat × Option Nat)
  | [], key, v => [(key, v)]
  | (k, w) :: rest, key, v =>
    if key < k then (key, v) :: (k, w) :: rest
    else if key = k then (key, v) :: rest
    else (k, w) :: mapSet rest key v

/-- `map.erase(k)`. -/
def mapErase : List (Nat × Option Nat) → Nat → List (Nat × Option Nat)
  | [], _ => []
  | (k, w) :: rest, key => if key = k then rest else (k, w) :: mapErase rest key

/-- The live-tracker view of the map: entries holding a non-null
`ResourceTrackerSP`. -/
def lookupLive (m : List (Nat × Option Nat)) (key : Nat) : Option Nat :=
  match mapFind m key with
  | some (some t) => some t
  | _ => none

/-! ## Data model -/

/-- `SwiftJITREPL::CompilationStats` (integer counters only; the two
`double` time fields are floating point and outside the embedding). -/
structure CompilationStats where
  total_expressions : Nat
  successful_compilations : Nat
  failed_compilations : Nat
  deriving DecidableEq

/-- `SwiftJITREPL::EvaluationResult`. -/
structure EvaluationResult where
  success : Bool
  value : String
  type : String
  error_message : String
  deriving DecidableEq

/-- The two-argument (success) constructor of `EvaluationResult`. -/
def EvaluationResult.ofValue (val typ : String) : EvaluationResult :=
  ⟨true, val, typ, ""⟩

/-- The one-argument (failure) constructor of `EvaluationResult`. -/
def EvaluationResult.ofError (err : String) : EvaluationResult :=
  ⟨false, "", "", err⟩

/-- `SwiftPartialTranslationUnit`.  `ptuId` models the C++ object
identity (`&PTU`, the executor map key); `ModulePart` is the
`swift::ModuleDecl*` identified by its fragment name; `TheModule` is the
owned `llvm::Module` identified by a minted id, `none` when absent or
after ownership was transferred; `InputCode` is the stored source. -/
structure SwiftPartialTranslationUnit where
  ptuId : Nat
  ModulePart : Option String
  TheModule : Option Nat
  InputCode : String
  deriving DecidableEq

/-- State of `SwiftIncrementalExecutor`: the LLJIT instance flag, the
`ResourceTrackers` map, a counter minting tracker identities, and the set
of modules currently linked into the JIT (tracker id × module id),
recording what `addIRModule` added and `ResourceTracker::remove` frees. -/
structure SwiftIncrementalExecutor where
  jitPresent : Bool
  ResourceTrackers : List (Nat × Option Nat)
  nextTracker : Nat
  jitModules : List (Nat × Nat)
  deriving DecidableEq

/-- State of `SwiftIncrementalParser`: the PTU list, the source-buffer
counter `InputCount`, the shared `modules` vector of accepted
`ModuleDecl`s (identified by fragment name), and a counter minting PTU
identities. -/
structure SwiftIncrementalParser where
  PTUs : List SwiftPartialTranslationUnit
  InputCount : Nat
  modules : List String
  nextPtuId : Nat
  deriving DecidableEq

/-- State of `SwiftInterpreter`: parser, executor, and the bootstrap
boundary `InitPTUSize` snapshotted by `markUserCodeStart`. -/
structure SwiftInterpreter where
  parser : SwiftIncrementalParser
  executor : SwiftIncrementalExecutor
  InitPTUSize : Nat
  deriving DecidableEq

/-- State of `SwiftJITREPL::Impl`. -/
structure SwiftJITREPLImpl where
  initialized : Bool
  lastError : String
  currentModuleName : String
  interp : Option SwiftInterpreter
  stats : CompilationStats
  initCalls : Nat
  deriving DecidableEq

/-- Outcomes of the external front-end / codegen / JIT services (out of
scope per the spec), indexed by call-site data: `parseSetupOk` and
`semaOk` by the parser input counter of the `Parse` call, `lowerOk`
(whether IR lowering produced a module) likewise, `addOk`
(`LLJIT::addIRModule`) and `ctorsOk` (`LLJIT::initialize` in `runCtors`)
by the PTU identity, `removeOk` (`ResourceTracker::remove`) by the
tracker identity, and `ciSetupOk` (`CompilerInstance::setup` validation
in `Impl::initialize`) by the REPL's initialization counter. -/
structure Oracle where
  ciSetupOk : Nat → Bool
  parseSetupOk : Nat → Bool
  semaOk : Nat → Bool
  lowerOk : Nat → Bool
  addOk : Nat → Bool
  ctorsOk : Nat → Bool
  removeOk : Nat → Bool

/-! ## Execution session (`SwiftIncrementalExecutor`, lines 985-1119) -/

/-- `SwiftIncrementalExecutor::addModule` (lines 985-1037).  After the
JIT-presence check it unconditionally creates a resource tracker and
records it under the PTU (line 999), *then* checks `PTU.TheModule`: if a
module is present, ownership moves into `addIRModule` (nulling
`PTU.TheModule`) and the add may fail; if absent, success with nothing
added to the JIT.  Returns (result, executor, the possibly-mutated PTU
reference). -/
def addModule (o : Oracle) (ex : SwiftIncrementalExecutor)
    (ptu : SwiftPartialTranslationUnit) :
    Except String Unit × SwiftIncrementalExecutor × SwiftPartialTranslationUnit :=
  if ex.jitPresent = false then (.error "JIT not initialized", ex, ptu)
  else
    let rt := ex.nextTracker
    let ex1 : SwiftIncrementalExecutor :=
      { ex with ResourceTrackers := mapSet ex.ResourceTrackers ptu.ptuId (some rt),
                nextTracker := rt + 1 }
    match ptu.TheModule with
    | some m =>
      let ptu1 := { ptu with TheModule := none }
      if o.addOk ptu.ptuId then
        (.ok (), { ex1 with jitModules := ex1.jitModules ++ [(rt, m)] }, ptu1)
      else (.error "Failed to add IR module to JIT", ex1, ptu1)
    | none => (.ok (), ex1, ptu)

/-- `SwiftIncrementalExecutor::removeModule` (lines 1039-1048).
`RT = std::move(ResourceTrackers[&PTU])` inserts a null entry when the
key is absent and leaves a null entry behind when one was present; on a
live tracker the entry is erased and `RT->remove()` unlinks everything
under the tracker.  The third component lists the trackers on which
`remove()` was invoked (freed allocations). -/
def removeModule (o : Oracle) (ex : SwiftIncrementalExecutor) (pid : Nat) :
    Except String Unit × SwiftIncrementalExecutor × List Nat :=
  match mapFind ex.ResourceTrackers pid with
  | none =>
    (.ok (), { ex with ResourceTrackers := mapSet ex.ResourceTrackers pid none }, [])
  | some none => (.ok (), ex, [])
  | some (some rt) =>
    let ex1 : SwiftIncrementalExecutor :=
      { ex with ResourceTrackers := mapErase ex.ResourceTrackers pid,
                jitModules := ex.jitModules.filter (fun pr => pr.1 ≠ rt) }
    if o.removeOk rt then (.ok (), ex1, [rt])
    else (.error "Failed to remove module resources", ex1, [rt])

/-- `SwiftIncrementalExecutor::runCtors` (lines 1101-1119): null-check
the JIT, then `LLJIT::initialize` (outcome by oracle, indexed by the PTU
being executed — see `InterpExecute`).  `const`: no state change. -/
def runCtors (o : Oracle) (ex : SwiftIncrementalExecutor) (idx : Nat) :
    Except String Unit :=
  if ex.jitPresent = false then .error "JIT not initialized"
  else if o.ctorsOk idx then .ok () else .error "Failed to initialize JIT dylib"

/-! ## Incremental parser (`SwiftIncrementalParser`, lines 738-948) -/

/-- The fragment (module) name minted by `Parse`:
`"Evaluation_" + std::to_string(modules->size())` (line 742). -/
def evalName (n : Nat) : String := "Evaluation_" ++ Nat.repr n

/-- `SwiftIncrementalParser::Parse` (lines 738-941).  Order is faithful
to the source: the fragment name is derived from the current size of the
shared `modules` vector; the module-creation lambda consumes one source
buffer id (`InputCount++`); the new module is registered in `modules`
(lines 838-839) *before* `CompilerInstance::setup` (line 862) and
`performSema` (line 872), so both failure paths leave the new module in
the import chain; a PTU is appended only after semantic analysis
succeeds, holding the lowered LLVM module when codegen produced one
(lines 916-937). -/
def Parse (o : Oracle) (ps : SwiftIncrementalParser) (input : String) :
    Except String SwiftPartialTranslationUnit × SwiftIncrementalParser :=
  let moduleName := evalName ps.modules.length
  let ic := ps.InputCount
  let ps1 : SwiftIncrementalParser :=
    { ps with InputCount := ic + 1, modules := ps.modules ++ [moduleName] }
  if o.parseSetupOk ic = false then
    (.error "Failed to setup CompilerInstance", ps1)
  else if o.semaOk ic = false then
    (.error "Semantic analysis failed", ps1)
  else
    let ptu : SwiftPartialTranslationUnit :=
      { ptuId := ps1.nextPtuId
        ModulePart := some moduleName
        TheModule := if o.lowerOk ic then some ic else none
        InputCode := input }
    (.ok ptu, { ps1 with PTUs := ps1.PTUs ++ [ptu], nextPtuId := ps1.nextPtuId + 1 })

/-- `SwiftIncrementalParser::CleanUpPTU` (lines 943-948): reset the
module, null the `ModuleDecl` pointer, clear the stored source. -/
def CleanUpPTU (p : SwiftPartialTranslationUnit) : SwiftPartialTranslationUnit :=
  { p with TheModule := none, ModulePart := none, InputCode := "" }

/-! ## Interpreter (`SwiftInterpreter`, lines 1152-1371) -/

/-- A `SwiftInterpreter` as built by its constructor: empty PTU list,
the base module registered in `modules`, a live JIT, and
`markUserCodeStart` snapshotting `InitPTUSize := PTUs.size() = 0`
(no bootstrap unit is ever parsed into the PTU list in this source). -/
def freshInterp : SwiftInterpreter :=
  { parser := { PTUs := [], InputCount := 0,
                modules := ["SwiftJITREPL_Base"], nextPtuId := 0 }
    executor := { jitPresent := true, ResourceTrackers := [],
                  nextTracker := 0, jitModules := [] }
    InitPTUSize := 0 }

/-- `SwiftInterpreter::getEffectivePTUSize` (lines 1257-1261).  The
`size_t` subtraction is modelled on `Nat`; the two agree whenever
`InitPTUSize ≤ PTUs.length`, which the asserted invariant (and
`markUserCodeStart`, which always records 0 here) guarantees. -/
def getEffectivePTUSize (ist : SwiftInterpreter) : Nat :=
  ist.parser.PTUs.length - ist.InitPTUSize

/-- Observable actions of `Undo` on a removed unit: the `removeModule`
call on the execution session, then the `CleanUpPTU` discarding the
unit's program fragment and module before `pop_back`. -/
inductive UndoEvent
  | unlink (pid : Nat)
  | cleanup (pid : Nat)
  deriving DecidableEq

/-- The `for` loop of `SwiftInterpreter::Undo` (lines 1270-1278): `N`
times remove `PTUs.back()` from the JIT, clean it up, pop it.  The
third component is the event trace.  (`back()` on an empty list is
undefined behaviour in the source; the guard in `Undo` makes that case
unreachable, and the model just stops there.) -/
def undoLoop (o : Oracle) :
    Nat → SwiftInterpreter → List UndoEvent →
    Except String Unit × SwiftInterpreter × List UndoEvent
  | 0, ist, tr => (.ok (), ist, tr)
  | n + 1, ist, tr =>
    match ist.parser.PTUs.getLast? with
    | none => (.ok (), ist, tr)
    | some p =>
      let rm := removeModule o ist.executor p.ptuId
      match rm.1 with
      | .error e => (.error e, { ist with executor := rm.2.1 }, tr ++ [.unlink p.ptuId])
      | .ok _ =>
        undoLoop o n
          { ist with executor := rm.2.1,
                     parser := { ist.parser with PTUs := ist.parser.PTUs.dropLast } }
          (tr ++ [.unlink p.ptuId, .cleanup p.ptuId])

/-- `SwiftInterpreter::Undo` (lines 1263-1280). -/
def Undo (o : Oracle) (ist : SwiftInterpreter) (N : Nat) :
    Except String Unit × SwiftInterpreter × List UndoEvent :=
  if N > getEffectivePTUSize ist then
    (.error "Operation failed. Too many undos", ist, [])
  else undoLoop o N ist []

/-- `SwiftInterpreter::Execute` (lines 1310-1330): `addModule` on the
executor (which may null the PTU's owned module), then `runCtors`.
Returns (result, interpreter, the mutated PTU reference). -/
def InterpExecute (o : Oracle) (ist : SwiftInterpreter)
    (ptu : SwiftPartialTranslationUnit) :
    Except String Unit × SwiftInterpreter × SwiftPartialTranslationUnit :=
  let am := addModule o ist.executor ptu
  let ist1 : SwiftInterpreter := { ist with executor := am.2.1 }
  match am.1 with
  | .error e => (.error e, ist1, am.2.2)
  | .ok _ =>
    match runCtors o ist1.executor ptu.ptuId with
    | .error e => (.error e, ist1, am.2.2)
    | .ok _ => (.ok (), ist1, am.2.2)

/-- Outcome of `ParseAndExecute` as seen by a caller: a C++ exception
propagating out (`thrown`, from the transform), a returned `llvm::Error`
(`failed`), or a success return. -/
inductive PAEOutcome
  | thrown (msg : String)
  | failed (msg : String)
  | ok
  deriving DecidableEq

/-- Write the mutated `PTUs.back()` reference back into the list. -/
def setLastPTU (l : List SwiftPartialTranslationUnit)
    (p : SwiftPartialTranslationUnit) : List SwiftPartialTranslationUnit :=
  l.dropLast ++ [p]

/-- `SwiftInterpreter::ParseAndExecute` (lines 1282-1308): transform the
snippet (`synthesizeExpr`; exceptions propagate), `Parse` it (errors
returned to the caller), then `Execute` the resulting PTU — whose
failure is logged and **swallowed**: line 1304 returns
`llvm::Error::success()` "to avoid crash".  The third component is the
swallowed Execute error, observable only in the `llvm::errs()` log. -/
def ParseAndExecute (o : Oracle) (ist : SwiftInterpreter) (code : String) :
    PAEOutcome × SwiftInterpreter × Option String :=
  match synthesizeExpr code with
  | none => (.thrown "basic_string::substr: out of range", ist, none)
  | some transformed =>
    let pr := Parse o ist.parser transformed
    let ist1 : SwiftInterpreter := { ist with parser := pr.2 }
    match pr.1 with
    | .error e => (.failed e, ist1, none)
    | .ok ptu =>
      let ex := InterpExecute o ist1 ptu
      let ist2 : SwiftInterpreter :=
        { ex.2.1 with parser :=
            { ex.2.1.parser with PTUs := setLastPTU ex.2.1.parser.PTUs ex.2.2 } }
      match ex.1 with
      | .error e => (.ok, ist2, some e)
      | .ok _ => (.ok, ist2, none)

/-! ## REPL façade (`SwiftJITREPL::Impl`, lines 346-580) -/

/-- A freshly constructed `SwiftJITREPL::Impl`. -/
def freshRepl : SwiftJITREPLImpl :=
  { initialized := false, lastError := "", currentModuleName := "",
    interp := none, stats := ⟨0, 0, 0⟩, initCalls := 0 }

/-- `SwiftJITREPL::Impl::initialize` (lines 392-463): pick a fresh
timestamp-based module name when none is recorded
(`generateUniqueModuleName`, line 361: `"SwiftJITREPL_" +` the
microsecond clock value `now`), record it (line 436) *before* validating
the configuration with a temporary `CompilerInstance`; on validation
failure report and bail; otherwise build a fresh `SwiftInterpreter`. -/
def initializeRepl (o : Oracle) (now : Nat) (st : SwiftJITREPLImpl) :
    Bool × SwiftJITREPLImpl :=
  let moduleName :=
    if st.currentModuleName = "" then "SwiftJITREPL_" ++ Nat.repr now
    else st.currentModuleName
  let st1 : SwiftJITREPLImpl :=
    { st with currentModuleName := moduleName, initCalls := st.initCalls + 1 }
  if o.ciSetupOk st.initCalls = false then
    (false, { st1 with
      lastError := "Failed to validate Swift compiler configuration" })
  else
    (true, { st1 with interp := some freshInterp, initialized := true })

/-- `SwiftJITREPL::Impl::evaluate` (lines 465-511).  Not-initialized and
null-interpreter guards return without touching the statistics.  A
`ParseAndExecute` error increments total/failed; note the returned
result's message is just `"Failed to execute: "` because the source
calls `llvm::toString(std::move(error))` twice (lines 488 and 491) and
the second call sees an already-consumed `llvm::Error`, while
`lastError` (first call) keeps the full message.  An exception is caught
(lines 505-510) and also counted as a failure.  On success the counters
record a successful compilation and a success result is returned (the
source's `EvaluationResult()` with no captured value). -/
def evaluate (o : Oracle) (st : SwiftJITREPLImpl) (expr : String) :
    EvaluationResult × SwiftJITREPLImpl :=
  if st.initialized = false then (.ofError "REPL not initialized", st)
  else
    match st.interp with
    | none =>
      (.ofError "Interpreter not initialized",
       { st with lastError := "Interpreter not initialized" })
    | some ist =>
      let pae := ParseAndExecute o ist expr
      let st1 : SwiftJITREPLImpl := { st with interp := some pae.2.1 }
      match pae.1 with
      | .thrown e =>
        (.ofError ("Compilation failed: " ++ e),
         { st1 with lastError := e,
                    stats := { st1.stats with
                      total_expressions := st1.stats.total_expressions + 1,
                      failed_compilations := st1.stats.failed_compilations + 1 } })
      | .failed e =>
        (.ofError "Failed to execute: ",
         { st1 with lastError := "Failed to execute: " ++ e,
                    stats := { st1.stats with
                      total_expressions := st1.stats.total_expressions + 1,
                      failed_compilations := st1.stats.failed_compilations + 1 } })
      | .ok =>
        (EvaluationResult.ofValue "" "",
         { st1 with stats := { st1.stats with
             total_expressions := st1.stats.total_expressions + 1,
             successful_compilations := st1.stats.successful_compilations + 1 } })

/-- `SwiftJITREPL::Impl::reset` (lines 521-547): clear the recorded
module name (forcing a fresh unique name), zero the statistics, clear
the last error, drop the interpreter, then re-run `initialize`. -/
def resetRepl (o : Oracle) (now : Nat) (st : SwiftJITREPLImpl) :
    Bool × SwiftJITREPLImpl :=
  initializeRepl o now
    { st with currentModuleName := "", stats := ⟨0, 0, 0⟩,
              lastError := "", initialized := false, interp := none }

/-- The placeholder result used by `evaluateMultiple`. -/
def stoppedResult : EvaluationResult :=
  EvaluationResult.ofError "Stopped due to previous failure"

/-- The loop of `SwiftJITREPL::Impl::evaluateMultiple` (lines 562-576):
evaluate in order; on the first failure push that failure result, pad
with `stoppedResult` to the input length, and break. -/
def evalLoop (o : Oracle) :
    List String → SwiftJITREPLImpl → List EvaluationResult × SwiftJITREPLImpl
  | [], st => ([], st)
  | e :: rest, st =>
    let r := evaluate o st e
    if r.1.success then
      let rs := evalLoop o rest r.2
      (r.1 :: rs.1, rs.2)
    else (r.1 :: List.replicate rest.length stoppedResult, r.2)

/-- `SwiftJITREPL::Impl::evaluateMultiple` (lines 553-579). -/
def evaluateMultiple (o : Oracle) (st : SwiftJITREPLImpl)
    (exprs : List String) : List EvaluationResult × SwiftJITREPLImpl :=
  if st.initialized = false then
    (List.replicate exprs.length (.ofError "REPL not initialized"), st)
  else evalLoop o exprs st

/-- Reference process for the batch contract: evaluate *every*
expression in submission order, never stopping. -/
def seqEval (o : Oracle) :
    List String → SwiftJITREPLImpl → List EvaluationResult × SwiftJITREPLImpl
  | [], st => ([], st)
  | e :: rest, st =>
    let r := evaluate o st e
    let rs := seqEval o rest r.2
    (r.1 :: rs.1, rs.2)

/-- Public operations of one `SwiftJITREPL` instance, for stating
invariants over call sequences. -/
inductive ReplOp
  | evalOne (e : String)
  | evalMany (es : List String)
  | doReset (now : Nat)

/-- State transition of one public operation. -/
def step (o : Oracle) (st : SwiftJITREPLImpl) : ReplOp → SwiftJITREPLImpl
  | .evalOne e => (evaluate o st e).2
  | .evalMany es => (evaluateMultiple o st es).2
  | .doReset now => (resetRepl o now st).2

/-- Run a sequence of public operations. -/
def runOps (o : Oracle) : List ReplOp → SwiftJITREPLImpl → SwiftJITREPLImpl
  | [], st => st
  | op :: rest, st => runOps o rest (step o st op)

/-! ## Concrete service outcomes used by witnesses and counterexamples -/

/-- Every external service call succeeds. -/
def oracleAllOk : Oracle :=
  ⟨fun _ => true, fun _ => true, fun _ => true, fun _ => true,
   fun _ => true, fun _ => true, fun _ => true⟩

/-- `LLJIT::addIRModule` fails; everything else succeeds. -/
def oracleAddFails : Oracle := { oracleAllOk with addOk := fun _ => false }

/-- `performSema` reports errors; everything else succeeds. -/
def oracleSemaFails : Oracle := { oracleAllOk with semaOk := fun _ => false }

/-! ## Claim theorems -/

/-- C1: for every interpreter state (with the invariant
`InitPTUSize ≤ PTUs.length` under which the `size_t` subtraction in
`getEffectivePTUSize` is faithfully `Nat` subtraction) and every `N`
exceeding the number of user (non-bootstrap) units, `Undo N` fails with
the `TooManyUndos` error and returns the state bit-for-bit unchanged,
with an empty event trace: no unit is removed from the PTU list, no
`removeModule`/cleanup happens, so no module is unlinked from the JIT
and bootstrap units are untouched. -/
theorem undo_too_many_unchanged (o : Oracle) (ist : SwiftInterpreter) (N : Nat)
    (hInit : ist.InitPTUSize ≤ ist.parser.PTUs.length)
    (hN : getEffectivePTUSize ist < N) :
    Undo o ist N = (.error "Operation failed. Too many undos", ist, []) := by
  unfold Undo
  rw [if_pos hN]

/-- Witness for C1 at `N = 1` on a fresh interpreter (no user units). -/
theorem undo_too_many_unchanged_witness :
    (freshInterp.InitPTUSize ≤ freshInterp.parser.PTUs.length ∧
      getEffectivePTUSize freshInterp < 1) ∧
    Undo oracleAllOk freshInterp 1 =
      (.error "Operation failed. Too many undos", freshInterp, []) :=
  ⟨⟨by decide, by decide⟩,
   undo_too_many_unchanged oracleAllOk freshInterp 1 (by decide) (by decide)⟩

/-- Counterexample to C2: with the JIT refusing the module
(`addOk = false`) and the front end succeeding, `ParseAndExecute`
returns success while the add failure is only written to the error log
(source line 1304 returns `llvm::Error::success()` "to avoid crash"),
and the caller's `EvaluationResult` reports `success = true` and a
successful compilation in the statistics. -/
theorem execute_failure_reported_as_success_cex :
    (ParseAndExecute oracleAddFails freshInterp "x").1 = PAEOutcome.ok ∧
    (ParseAndExecute oracleAddFails freshInterp "x").2.2 =
      some "Failed to add IR module to JIT" ∧
    (evaluate oracleAddFails (initializeRepl oracleAddFails 0 freshRepl).2
        "x").1.success = true ∧
    (evaluate oracleAddFails (initializeRepl oracleAddFails 0 freshRepl).2
        "x").2.stats = ⟨1, 1, 0⟩ := by
  refine ⟨rfl, rfl, rfl, rfl⟩

/-- C2 amended: `ParseAndExecute` reports exactly the parse (front-end)
failures to the caller; once `Parse` succeeds the outcome is success
regardless of whether adding the module to the JIT or executing it
failed, and correspondingly `evaluate` on an initialized REPL returns
`success = true` exactly when `Parse` succeeds. -/
theorem execute_failures_swallowed (o : Oracle) (ist : SwiftInterpreter)
    (code t : String) (ht : synthesizeExpr code = some t) :
    (ParseAndExecute o ist code).1 =
      (match (Parse o ist.parser t).1 with
       | .error e => PAEOutcome.failed e
       | .ok _ => PAEOutcome.ok) ∧
    (∀ st : SwiftJITREPLImpl, st.initialized = true → st.interp = some ist →
      ((evaluate o st code).1.success = true ↔
        ∃ p, (Parse o ist.parser t).1 = .ok p)) := by
  have hpae : (ParseAndExecute o ist code).1 =
      (match (Parse o ist.parser t).1 with
       | .error e => PAEOutcome.failed e
       | .ok _ => PAEOutcome.ok) := by
    unfold ParseAndExecute
    rw [ht]
    cases hp : (Parse o ist.parser t).1 with
    | error e => simp [hp]
    | ok ptu =>
      simp only [hp]
      cases hx : (InterpExecute o { ist with parser := (Parse o ist.parser t).2 } ptu).1 with
      | error e => simp [hx]
      | ok _ => simp [hx]
  refine ⟨hpae, ?_⟩
  intro st hinit hint
  unfold evaluate
  rw [hinit, hint]
  simp only [Bool.true_eq_false, if_false]
  cases hp : (Parse o ist.parser t).1 with
  | error e =>
    rw [hp] at hpae
    simp only [hpae]
    constructor
    · intro h
      simp [EvaluationResult.ofError] at h
    · rintro ⟨p, hps⟩
      simp at hps
  | ok ptu =>
    rw [hp] at hpae
    simp only [hpae]
    constructor
    · intro _
      exact ⟨ptu, rfl⟩
    · intro _
      rfl

/-- Witness for C2 (amended) with the all-failing JIT: parse succeeds so
the outcome is `ok`, and `evaluate` reports success. -/
theorem execute_failures_swallowed_witness :
    synthesizeExpr "x" = some "x\n" ∧
    (ParseAndExecute oracleAddFails freshInterp "x").1 =
      (match (Parse oracleAddFails freshInterp.parser "x\n").1 with
       | .error e => PAEOutcome.failed e
       | .ok _ => PAEOutcome.ok) :=
  ⟨by decide,
   (execute_failures_swallowed oracleAddFails freshInterp "x" "x\n" (by decide)).1⟩

/-- Counterexample to C3: a submission failing semantic analysis leaves
the PTU list alone but *does* mutate the shared `modules` list used for
the import chain — the rejected fragment was registered (lines 838-839)
before `performSema` ran. -/
theorem parse_failure_mutates_modules_cex :
    (Parse oracleSemaFails freshInterp.parser "let x = 1").1 =
      .error "Semantic analysis failed" ∧
    (Parse oracleSemaFails freshInterp.parser "let x = 1").2.PTUs = [] ∧
    (Parse oracleSemaFails freshInterp.parser "let x = 1").2.modules ≠
      freshInterp.parser.modules :=
  ⟨rfl, rfl, by decide⟩

/-- C3 amended: when `Parse` fails no compilation unit is appended to
the PTU list (a unit is appended only on success), but the import-chain
`modules` list has already been extended with the new fragment, so the
session state is not left unchanged. -/
theorem parse_failure_state (o : Oracle) (ps : SwiftIncrementalParser)
    (input : String) :
    (∀ e, (Parse o ps input).1 = .error e →
       (Parse o ps input).2.PTUs = ps.PTUs ∧
       (Parse o ps input).2.modules = ps.modules ++ [evalName ps.modules.length]) ∧
    (∀ ptu, (Parse o ps input).1 = .ok ptu →
       (Parse o ps input).2.PTUs = ps.PTUs ++ [ptu] ∧
       (Parse o ps input).2.modules = ps.modules ++ [evalName ps.modules.length]) := by
  unfold Parse
  by_cases h1 : o.parseSetupOk ps.InputCount = false
  · rw [if_pos h1]
    exact ⟨fun e _ => ⟨rfl, rfl⟩, fun ptu h => by simp at h⟩
  · rw [if_neg h1]
    by_cases h2 : o.semaOk ps.InputCount = false
    · rw [if_pos h2]
      exact ⟨fun e _ => ⟨rfl, rfl⟩, fun ptu h => by simp at h⟩
    · rw [if_neg h2]
      refine ⟨fun e h => by simp at h, fun ptu h => ?_⟩
      simp only [Except.ok.injEq] at h
      subst h
      exact ⟨rfl, rfl⟩

/-- Witness for C3 (amended): a failing parse on a fresh session. -/
theorem parse_failure_state_witness :
    (Parse oracleSemaFails freshInterp.parser "let x = 1").1 =
      .error "Semantic analysis failed" ∧
    (Parse oracleSemaFails freshInterp.parser "let x = 1").2.PTUs =
        freshInterp.parser.PTUs ∧
    (Parse oracleSemaFails freshInterp.parser "let x = 1").2.modules =
        freshInterp.parser.modules ++
          [evalName freshInterp.parser.modules.length] :=
  ⟨rfl,
   (parse_failure_state oracleSemaFails freshInterp.parser "let x = 1").1
     "Semantic analysis failed" rfl⟩

/-- Counterexample to C6: adding a declaration-only unit (no compiled
module) succeeds and adds nothing to the JIT, but a fresh
`LinkerResourceHandle` *is* created and recorded for the unit (line 999
runs before the `PTU.TheModule` check), so the executor state changes. -/
theorem addModule_no_module_records_handle_cex :
    (addModule oracleAllOk freshInterp.executor
        ⟨0, some (evalName 1), none, "code"⟩).1 = .ok () ∧
    (addModule oracleAllOk freshInterp.executor
        ⟨0, some (evalName 1), none, "code"⟩).2.1.ResourceTrackers =
      [(0, some 0)] ∧
    (addModule oracleAllOk freshInterp.executor
        ⟨0, some (evalName 1), none, "code"⟩).2.1 ≠ freshInterp.executor ∧
    (addModule oracleAllOk freshInterp.executor
        ⟨0, some (evalName 1), none, "code"⟩).2.1.jitModules = [] :=
  ⟨rfl, rfl, by decide, rfl⟩

/-- C6 amended: for a unit whose compiled module is absent, `addModule`
returns success, hands nothing to the JIT (`jitModules` untouched) and
leaves the unit itself unmodified — but it does create a fresh resource
tracker and record it for the unit. -/
theorem addModule_declaration_only (o : Oracle) (ex : SwiftIncrementalExecutor)
    (ptu : SwiftPartialTranslationUnit) (hm : ptu.TheModule = none)
    (hj : ex.jitPresent = true) :
    addModule o ex ptu =
      (.ok (),
       { ex with
          ResourceTrackers := mapSet ex.ResourceTrackers ptu.ptuId (some ex.nextTracker),
          nextTracker := ex.nextTracker + 1 },
       ptu) := by
  unfold addModule
  rw [hj, hm]
  simp

/-- Witness for C6 (amended) on a fresh executor. -/
theorem addModule_declaration_only_witness :
    ((⟨0, some (evalName 1), none, "code"⟩ :
        SwiftPartialTranslationUnit).TheModule = none ∧
      freshInterp.executor.jitPresent = true) ∧
    addModule oracleAllOk freshInterp.executor
        ⟨0, some (evalName 1), none, "code"⟩ =
      (.ok (),
       { freshInterp.executor with
          ResourceTrackers := [(0, some 0)], nextTracker := 1 },
       ⟨0, some (evalName 1), none, "code"⟩) :=
  ⟨⟨rfl, rfl⟩,
   addModule_declaration_only oracleAllOk freshInterp.executor
     ⟨0, some (evalName 1), none, "code"⟩ rfl rfl⟩

/-! Association-list lemmas for the tracker map. -/

theorem mapFind_mapSet_self (m : List (Nat × Option Nat)) (k : Nat)
    (v : Option Nat) : mapFind (mapSet m k v) k = some v := by
  induction m with
  | nil => simp [mapSet, mapFind]
  | cons hd tl ih =>
    obtain ⟨k1, v1⟩ := hd
    unfold mapSet
    by_cases h1 : k < k1
    · rw [if_pos h1]
      simp [mapFind]
    · rw [if_neg h1]
      by_cases h2 : k = k1
      · rw [if_pos h2]
        simp [mapFind]
      · rw [if_neg h2]
        unfold mapFind
        rw [if_neg h2]
        exact ih

theorem mapFind_mapSet_ne (m : List (Nat × Option Nat)) (k j : Nat)
    (v : Option Nat) (hne : j ≠ k) : mapFind (mapSet m k v) j = mapFind m j := by
  induction m with
  | nil => simp [mapSet, mapFind, hne]
  | cons hd tl ih =>
    obtain ⟨k1, v1⟩ := hd
    unfold mapSet
    by_cases h1 : k < k1
    · rw [if_pos h1]
      unfold mapFind
      rw [if_neg hne]
      rfl
    · rw [if_neg h1]
      by_cases h2 : k = k1
      · rw [if_pos h2]
        unfold mapFind
        rw [if_neg (h2 ▸ hne), if_neg (h2 ▸ hne)]
      · rw [if_neg h2]
        unfold mapFind
        by_cases h3 : j = k1
        · rw [if_pos h3, if_pos h3]
        · rw [if_neg h3, if_neg h3]
          exact ih

theorem mapFind_eq_none_of_not_mem {m : List (Nat × Option Nat)} {k : Nat}
    (h : k ∉ m.map Prod.fst) : mapFind m k = none := by
  induction m with
  | nil => rfl
  | cons hd tl ih =>
    obtain ⟨k1, v1⟩ := hd
    simp only [List.map_cons, List.mem_cons, not_or] at h
    unfold mapFind
    rw [if_neg h.1]
    exact ih h.2

theorem mapFind_mapErase_self (m : List (Nat × Option Nat)) (k : Nat)
    (hnd : (m.map Prod.fst).Nodup) : mapFind (mapErase m k) k = none := by
  induction m with
  | nil => rfl
  | cons hd tl ih =>
    obtain ⟨k1, v1⟩ := hd
    simp only [List.map_cons, List.nodup_cons] at hnd
    unfold mapErase
    by_cases h1 : k = k1
    · rw [if_pos h1]
      subst h1
      exact mapFind_eq_none_of_not_mem hnd.1
    · rw [if_neg h1]
      unfold mapFind
      rw [if_neg h1]
      exact ih hnd.2

/-- Counterexample to C7: removing a unit and then removing it again
both succeed, but the second call does *not* leave the resource-tracker
state unchanged — `operator[]` on the now-absent key inserts a null
entry into the map. -/
theorem removeModule_second_call_mutates_map_cex :
    (removeModule oracleAllOk ⟨true, [(0, some 0)], 1, [(0, 5)]⟩ 0).1 = .ok () ∧
    (removeModule oracleAllOk
        (removeModule oracleAllOk ⟨true, [(0, some 0)], 1, [(0, 5)]⟩ 0).2.1 0).1 =
      .ok () ∧
    (removeModule oracleAllOk
        (removeModule oracleAllOk ⟨true, [(0, some 0)], 1, [(0, 5)]⟩ 0).2.1
        0).2.1.ResourceTrackers ≠
      (removeModule oracleAllOk ⟨true, [(0, some 0)], 1, [(0, 5)]⟩
        0).2.1.ResourceTrackers :=
  ⟨rfl, rfl, by decide⟩

/-- C7 amended: `removeModule` on a unit with no live tracker (never
added, or already removed) succeeds as a no-op up to a null map entry:
no tracker's `remove()` is invoked (no double free), the JIT contents
are untouched, and the live-tracker view of the map is unchanged;
moreover a removal of a live tracker (`remove()` succeeding) frees
exactly that tracker and leaves the unit with no live tracker, so the
second call falls into the no-op case. -/
theorem removeModule_idempotent (o : Oracle) (ex : SwiftIncrementalExecutor)
    (pid : Nat) :
    (lookupLive ex.ResourceTrackers pid = none →
      (removeModule o ex pid).1 = .ok () ∧
      (removeModule o ex pid).2.2 = [] ∧
      (removeModule o ex pid).2.1.jitModules = ex.jitModules ∧
      ∀ k, lookupLive (removeModule o ex pid).2.1.ResourceTrackers k =
             lookupLive ex.ResourceTrackers k) ∧
    (∀ rt, mapFind ex.ResourceTrackers pid = some (some rt) →
      o.removeOk rt = true → (ex.ResourceTrackers.map Prod.fst).Nodup →
      (removeModule o ex pid).1 = .ok () ∧
      (removeModule o ex pid).2.2 = [rt] ∧
      lookupLive (removeModule o ex pid).2.1.ResourceTrackers pid = none) := by
  constructor
  · intro hlive
    unfold lookupLive at hlive
    cases hf : mapFind ex.ResourceTrackers pid with
    | none =>
      have hrm : removeModule o ex pid =
          (.ok (),
           { ex with ResourceTrackers := mapSet ex.ResourceTrackers pid none },
           []) := by
        unfold removeModule
        rw [hf]
      rw [hrm]
      refine ⟨rfl, rfl, rfl, fun k => ?_⟩
      unfold lookupLive
      by_cases hk : k = pid
      · subst hk
        rw [mapFind_mapSet_self, hf]
      · rw [mapFind_mapSet_ne _ _ _ _ hk]
    | some v =>
      cases v with
      | none =>
        have hrm : removeModule o ex pid = (.ok (), ex, []) := by
          unfold removeModule
          rw [hf]
        rw [hrm]
        exact ⟨rfl, rfl, rfl, fun k => rfl⟩
      | some t =>
        rw [hf] at hlive
        simp at hlive
  · intro rt hf hok hnd
    have hrm : removeModule o ex pid =
        (.ok (),
         { ex with ResourceTrackers := mapErase ex.ResourceTrackers pid,
                   jitModules := ex.jitModules.filter (fun pr => pr.1 ≠ rt) },
         [rt]) := by
      unfold removeModule
      rw [hf]
      simp [hok]
    rw [hrm]
    refine ⟨rfl, rfl, ?_⟩
    unfold lookupLive
    rw [mapFind_mapErase_self _ _ hnd]

/-- Witness for C7 (amended): both branches exercised on a one-entry
executor. -/
theorem removeModule_idempotent_witness :
    (mapFind ([(0, some 7)] : List (Nat × Option Nat)) 0 = some (some 7) ∧
      oracleAllOk.removeOk 7 = true ∧
      lookupLive ([] : List (Nat × Option Nat)) 3 = none) ∧
    (removeModule oracleAllOk ⟨true, [(0, some 7)], 8, []⟩ 0).1 = .ok () ∧
    (removeModule oracleAllOk ⟨true, [(0, some 7)], 8, []⟩ 0).2.2 = [7] ∧
    lookupLive (removeModule oracleAllOk ⟨true, [(0, some 7)], 8, []⟩
        0).2.1.ResourceTrackers 0 = none ∧
    (removeModule oracleAllOk ⟨true, [], 0, []⟩ 3).1 = .ok () ∧
    (removeModule oracleAllOk ⟨true, [], 0, []⟩ 3).2.2 = [] :=
  ⟨⟨rfl, rfl, rfl⟩,
   by
    have h2 := (removeModule_idempotent oracleAllOk ⟨true, [(0, some 7)], 8, []⟩
      0).2 7 rfl rfl (by decide)
    have h1 := (removeModule_idempotent oracleAllOk ⟨true, [], 0, []⟩ 3).1 rfl
    exact ⟨h2.1, h2.2.1, h2.2.2, h1.1, h1.2.1⟩⟩

/-- Counterexample to C8: the transform does not pass the declaration
`"let x = 42"` through unchanged — it rewrites it to
`"public let x = 42\n"`. -/
theorem transform_rewrites_declaration_cex :
    synthesizeExpr "let x = 42" = some "public let x = 42\n" ∧
    ("public let x = 42\n" : String) ≠ "let x = 42" :=
  ⟨by decide, by decide⟩

/-- Helper: a keyword loop with no occurrence of the pattern returns the
string unchanged. -/
theorem publicizeCore_no_match {pat s : List Char} {pos : Nat} (fuel : Nat)
    (h : strFind s pat pos = none) : publicizeCore fuel pat s pos = some s := by
  cases fuel with
  | zero => rfl
  | succ f => simp [publicizeCore, h]

/-- C8 amended: the transform performs no expression-vs-declaration
classification and never routes a snippet through a value-capture
callback; every snippet gets `"public "` inserted before unprefixed
`"let "`/`"var "` tokens and a newline appended.  In particular a
snippet containing neither keyword is returned with only a newline
appended, while declarations like `"let x = 42"` are rewritten (see the
counterexample). -/
theorem transform_no_keyword_appends_newline (code : String)
    (hlet : strFind code.data "let ".data 0 = none)
    (hvar : strFind code.data "var ".data 0 = none) :
    synthesizeExpr code = some (List.asString (code.data ++ ['\n'])) := by
  unfold synthesizeExpr transformForValuePrinting
  simp only [publicizeCore_no_match _ hlet, publicizeCore_no_match _ hvar]

/-- Witness for C8 (amended): an arithmetic expression snippet. -/
theorem transform_no_keyword_appends_newline_witness :
    (strFind ("x + 1" : String).data ("let " : String).data 0 = none ∧
      strFind ("x + 1" : String).data ("var " : String).data 0 = none) ∧
    synthesizeExpr "x + 1" = some (List.asString (("x + 1" : String).data ++ ['\n'])) :=
  ⟨⟨by decide, by decide⟩,
   transform_no_keyword_appends_newline "x + 1" (by decide) (by decide)⟩

/-- Helper: when every `ResourceTracker::remove` succeeds, `removeModule`
always returns success. -/
theorem removeModule_ok (o : Oracle) (ex : SwiftIncrementalExecutor) (pid : Nat)
    (hrm : ∀ t, o.removeOk t = true) : (removeModule o ex pid).1 = .ok () := by
  cases hf : mapFind ex.ResourceTrackers pid with
  | none => simp [removeModule, hf]
  | some v =>
    cases v with
    | none => simp [removeModule, hf]
    | some t => simp [removeModule, hf, hrm t]

/-- Helper: taking at most all-but-one elements commutes with
`dropLast`. -/
theorem take_of_dropLast {α : Type _} (l : List α) (k : Nat)
    (h : k ≤ l.length - 1) : l.dropLast.take k = l.take k := by
  rw [List.dropLast_eq_take, List.take_take]
  congr 1
  omega

/-- Helper: dropping strictly inside a nonempty list splits off its last
element. -/
theorem drop_dropLast_getLast {α : Type _} (l : List α) (k : Nat) (hne : l ≠ [])
    (h : k ≤ l.length - 1) :
    l.drop k = l.dropLast.drop k ++ [l.getLast hne] := by
  conv_lhs => rw [← List.dropLast_concat_getLast hne]
  rw [List.drop_append_of_le_length]
  rw [List.length_dropLast]
  exact h

/-- Helper: full functional specification of the `Undo` loop when JIT
unlinking succeeds: the last `N` units are processed tail-to-head, each
generating a `removeModule` call followed by the cleanup that discards
its program fragment and module, and the surviving PTU list is exactly
the first `length - N` units; the parser's module list, input counter
and the bootstrap cursor are untouched. -/
theorem undoLoop_spec (o : Oracle) (hrm : ∀ t, o.removeOk t = true) :
    ∀ (N : Nat) (ist : SwiftInterpreter) (tr : List UndoEvent),
      N ≤ ist.parser.PTUs.length →
      (undoLoop o N ist tr).1 = .ok () ∧
      (undoLoop o N ist tr).2.1.parser.PTUs =
        ist.parser.PTUs.take (ist.parser.PTUs.length - N) ∧
      (undoLoop o N ist tr).2.1.parser.modules = ist.parser.modules ∧
      (undoLoop o N ist tr).2.1.parser.InputCount = ist.parser.InputCount ∧
      (undoLoop o N ist tr).2.1.InitPTUSize = ist.InitPTUSize ∧
      (undoLoop o N ist tr).2.2 =
        tr ++ (ist.parser.PTUs.drop (ist.parser.PTUs.length - N)).reverse.flatMap
          (fun p => [UndoEvent.unlink p.ptuId, UndoEvent.cleanup p.ptuId]) := by
  intro N
  induction N with
  | zero =>
    intro ist tr _
    simp [undoLoop]
  | succ n ih =>
    intro ist tr hlen
    have hne : ist.parser.PTUs ≠ [] := by
      intro h
      rw [h] at hlen
      simp at hlen
    have hgl : ist.parser.PTUs.getLast? =
        some (ist.parser.PTUs.getLast hne) := List.getLast?_eq_getLast _ hne
    have hok : (removeModule o ist.executor
        (ist.parser.PTUs.getLast hne).ptuId).1 = .ok () :=
      removeModule_ok o _ _ hrm
    have hstep : undoLoop o (n + 1) ist tr =
        undoLoop o n
          { ist with
              executor := (removeModule o ist.executor
                (ist.parser.PTUs.getLast hne).ptuId).2.1,
              parser := { ist.parser with PTUs := ist.parser.PTUs.dropLast } }
          (tr ++ [.unlink (ist.parser.PTUs.getLast hne).ptuId,
                  .cleanup (ist.parser.PTUs.getLast hne).ptuId]) := by
      simp only [undoLoop, hgl, hok]
    rw [hstep]
    have hdl : ist.parser.PTUs.dropLast.length = ist.parser.PTUs.length - 1 := by
      simp [List.length_dropLast]
    obtain ⟨c1, c2, c3, c4, c5, c6⟩ := ih
      { ist with
          executor := (removeModule o ist.executor
            (ist.parser.PTUs.getLast hne).ptuId).2.1,
          parser := { ist.parser with PTUs := ist.parser.PTUs.dropLast } }
      (tr ++ [.unlink (ist.parser.PTUs.getLast hne).ptuId,
              .cleanup (ist.parser.PTUs.getLast hne).ptuId])
      (by rw [hdl]; omega)
    refine ⟨c1, ?_, c3, c4, c5, ?_⟩
    · rw [c2]
      simp only [hdl]
      rw [take_of_dropLast _ _ (by omega)]
      congr 1
      omega
    · rw [c6]
      simp only [hdl]
      rw [drop_dropLast_getLast ist.parser.PTUs
        (ist.parser.PTUs.length - (n + 1)) hne (by omega)]
      rw [List.reverse_concat, List.flatMap_cons]
      have hidx : ist.parser.PTUs.length - 1 - n =
          ist.parser.PTUs.length - (n + 1) := by omega
      rw [hidx]
      simp

/-- C4: on a session with at least `N` user units (and successful JIT
unlinking), `Undo N` succeeds; the PTU list afterwards is exactly the
first `length - N` units (so all earlier units, bootstrap ones included,
remain recorded), and the event trace shows the last `N` units processed
most-recent-first, each with its `removeModule` call on the execution
session happening before the cleanup that discards its program fragment
and compiled module. -/
theorem undo_removes_exact_tail (o : Oracle) (ist : SwiftInterpreter) (N : Nat)
    (hInit : ist.InitPTUSize ≤ ist.parser.PTUs.length)
    (hN : N ≤ getEffectivePTUSize ist)
    (hrm : ∀ t, o.removeOk t = true) :
    (Undo o ist N).1 = .ok () ∧
    (Undo o ist N).2.1.parser.PTUs =
      ist.parser.PTUs.take (ist.parser.PTUs.length - N) ∧
    (Undo o ist N).2.1.parser.modules = ist.parser.modules ∧
    (Undo o ist N).2.1.InitPTUSize = ist.InitPTUSize ∧
    (Undo o ist N).2.2 =
      (ist.parser.PTUs.drop (ist.parser.PTUs.length - N)).reverse.flatMap
        (fun p => [UndoEvent.unlink p.ptuId, UndoEvent.cleanup p.ptuId]) := by
  have hguard : ¬ (N > getEffectivePTUSize ist) := not_lt.mpr hN
  have hloop := undoLoop_spec o hrm N ist []
    (by unfold getEffectivePTUSize at hN; omega)
  have hU : Undo o ist N = undoLoop o N ist [] := by
    unfold Undo
    rw [if_neg hguard]
  rw [hU]
  obtain ⟨c1, c2, c3, _, c5, c6⟩ := hloop
  exact ⟨c1, c2, c3, c5, by simpa using c6⟩

/-- Witness for C4: a session holding two user units, undone with
`N = 2`; the trace removes unit 1 then unit 0, `removeModule` first. -/
theorem undo_removes_exact_tail_witness :
    ((⟨⟨[⟨0, some (evalName 1), none, "a"⟩, ⟨1, some (evalName 2), none, "b"⟩],
        2, ["SwiftJITREPL_Base", evalName 1, evalName 2], 2⟩,
       ⟨true, [(0, some 0), (1, some 1)], 2, []⟩, 0⟩ :
        SwiftInterpreter).InitPTUSize = 0 ∧
      (2 : Nat) ≤ getEffectivePTUSize
        ⟨⟨[⟨0, some (evalName 1), none, "a"⟩, ⟨1, some (evalName 2), none, "b"⟩],
          2, ["SwiftJITREPL_Base", evalName 1, evalName 2], 2⟩,
         ⟨true, [(0, some 0), (1, some 1)], 2, []⟩, 0⟩) ∧
    (Undo oracleAllOk
      ⟨⟨[⟨0, some (evalName 1), none, "a"⟩, ⟨1, some (evalName 2), none, "b"⟩],
        2, ["SwiftJITREPL_Base", evalName 1, evalName 2], 2⟩,
       ⟨true, [(0, some 0), (1, some 1)], 2, []⟩, 0⟩ 2).1 = .ok () ∧
    (Undo oracleAllOk
      ⟨⟨[⟨0, some (evalName 1), none, "a"⟩, ⟨1, some (evalName 2), none, "b"⟩],
        2, ["SwiftJITREPL_Base", evalName 1, evalName 2], 2⟩,
       ⟨true, [(0, some 0), (1, some 1)], 2, []⟩, 0⟩ 2).2.2 =
      [.unlink 1, .cleanup 1, .unlink 0, .cleanup 0] := by
  refine ⟨⟨rfl, by decide⟩, ?_, ?_⟩
  · exact (undo_removes_exact_tail oracleAllOk _ 2 (by decide) (by decide)
      (fun t => rfl)).1
  · have h := (undo_removes_exact_tail oracleAllOk
      ⟨⟨[⟨0, some (evalName 1), none, "a"⟩, ⟨1, some (evalName 2), none, "b"⟩],
        2, ["SwiftJITREPL_Base", evalName 1, evalName 2], 2⟩,
       ⟨true, [(0, some 0), (1, some 1)], 2, []⟩, 0⟩ 2 (by decide) (by decide)
      (fun t => rfl)).2.2.2.2
    rw [h]
    rfl

/-- Helper: `evaluate` never changes the `initialized` flag. -/
theorem evaluate_initialized (o : Oracle) (st : SwiftJITREPLImpl) (e : String) :
    (evaluate o st e).2.initialized = st.initialized := by
  unfold evaluate
  split
  · rfl
  · split
    · rfl
    · rename_i ist heq
      cases hp : (ParseAndExecute o ist e).1 <;> simp [hp]

/-- Index of the first failed result in a result list. -/
def firstFailIdx : List EvaluationResult → Option Nat
  | [] => none
  | r :: rest => if r.success then (firstFailIdx rest).map (· + 1) else some 0

/-- Helper: one step of `evaluateMultiple` on an initialized REPL. -/
theorem evaluateMultiple_cons (o : Oracle) (st : SwiftJITREPLImpl)
    (hinit : st.initialized = true) (e : String) (rest : List String) :
    evaluateMultiple o st (e :: rest) =
      (if (evaluate o st e).1.success
       then ((evaluate o st e).1 :: (evaluateMultiple o (evaluate o st e).2 rest).1,
             (evaluateMultiple o (evaluate o st e).2 rest).2)
       else ((evaluate o st e).1 :: List.replicate rest.length stoppedResult,
             (evaluate o st e).2)) := by
  have h2 : evaluateMultiple o (evaluate o st e).2 rest =
      evalLoop o rest (evaluate o st e).2 := by
    unfold evaluateMultiple
    rw [if_neg (by rw [evaluate_initialized, hinit]; simp)]
  have h1 : evaluateMultiple o st (e :: rest) = evalLoop o (e :: rest) st := by
    unfold evaluateMultiple
    rw [if_neg (by rw [hinit]; simp)]
  rw [h1, h2]
  simp only [evalLoop]

/-- Helper: `evaluateMultiple` on an empty list of an initialized REPL. -/
theorem evaluateMultiple_nil (o : Oracle) (st : SwiftJITREPLImpl)
    (hinit : st.initialized = true) :
    evaluateMultiple o st [] = ([], st) := by
  unfold evaluateMultiple
  rw [if_neg (by rw [hinit]; simp)]
  rfl

/-- C5: on an initialized REPL, `evaluateMultiple` returns one result
per expression; as long as the sequential reference evaluation
(`seqEval`, which evaluates everything) sees no failure the two agree
exactly, and when the reference sees its first failure at index `k`, the
output is the first `k + 1` genuine results (each expression's own
evaluation result, in submission order, up to and including the failing
one) padded with the "Stopped due to previous failure" placeholder, and
the final state is that of evaluating only the first `k + 1` expressions
— the remaining expressions are never evaluated. -/
theorem evaluateMultiple_stops_at_first_failure (o : Oracle) :
    ∀ (exprs : List String) (st : SwiftJITREPLImpl), st.initialized = true →
      (evaluateMultiple o st exprs).1.length = exprs.length ∧
      (firstFailIdx (seqEval o exprs st).1 = none →
        evaluateMultiple o st exprs = seqEval o exprs st) ∧
      (∀ k, firstFailIdx (seqEval o exprs st).1 = some k →
        (evaluateMultiple o st exprs).1 =
          (seqEval o exprs st).1.take (k + 1) ++
            List.replicate (exprs.length - (k + 1)) stoppedResult ∧
        (evaluateMultiple o st exprs).2 = (seqEval o (exprs.take (k + 1)) st).2) := by
  intro exprs
  induction exprs with
  | nil =>
    intro st hinit
    rw [evaluateMultiple_nil o st hinit]
    exact ⟨rfl, fun _ => rfl, fun k hk => by simp [seqEval, firstFailIdx] at hk⟩
  | cons e rest ih =>
    intro st hinit
    have hinit2 : (evaluate o st e).2.initialized = true := by
      rw [evaluate_initialized, hinit]
    obtain ⟨ih1, ih2, ih3⟩ := ih (evaluate o st e).2 hinit2
    have hseq : seqEval o (e :: rest) st =
        ((evaluate o st e).1 :: (seqEval o rest (evaluate o st e).2).1,
         (seqEval o rest (evaluate o st e).2).2) := rfl
    rw [evaluateMultiple_cons o st hinit e rest, hseq]
    by_cases hs : (evaluate o st e).1.success
    · rw [if_pos hs]
      have hff : firstFailIdx ((evaluate o st e).1 ::
          (seqEval o rest (evaluate o st e).2).1) =
          (firstFailIdx (seqEval o rest (evaluate o st e).2).1).map (· + 1) := by
        simp [firstFailIdx, hs]
      refine ⟨by simpa using ih1, ?_, ?_⟩
      · intro hnone
        rw [hff] at hnone
        simp only [Option.map_eq_none'] at hnone
        have := ih2 hnone
        rw [this]
      · intro k hk
        rw [hff] at hk
        simp only [Option.map_eq_some'] at hk
        obtain ⟨j, hj, rfl⟩ := hk
        obtain ⟨hj1, hj2⟩ := ih3 j hj
        constructor
        · simp only [List.take_succ_cons, List.cons_append, hj1]
          have : rest.length - (j + 1) = (e :: rest).length - (j + 1 + 1) := by
            simp only [List.length_cons]
            omega
          rw [this]
        · have htake : (e :: rest).take (j + 1 + 1) = e :: rest.take (j + 1) := rfl
          rw [hj2, htake]
          rfl
    · rw [if_neg hs]
      have hff : firstFailIdx ((evaluate o st e).1 ::
          (seqEval o rest (evaluate o st e).2).1) = some 0 := by
        simp [firstFailIdx, hs]
      refine ⟨by simp, ?_, ?_⟩
      · intro hnone
        rw [hff] at hnone
        simp at hnone
      · intro k hk
        rw [hff] at hk
        simp only [Option.some.injEq] at hk
        subst hk
        exact ⟨by simp, rfl⟩

/-- Witness for C5: three expressions of which the second fails
(`semaOk` rejects the second submission): the output is the first two
genuine results followed by the placeholder. -/
theorem evaluateMultiple_stops_witness :
    ((initializeRepl ⟨fun _ => true, fun _ => true, fun ic => ic != 1,
        fun _ => true, fun _ => true, fun _ => true, fun _ => true⟩ 0
        freshRepl).2.initialized = true ∧
      firstFailIdx (seqEval ⟨fun _ => true, fun _ => true, fun ic => ic != 1,
        fun _ => true, fun _ => true, fun _ => true, fun _ => true⟩
        ["a", "b", "c"]
        (initializeRepl ⟨fun _ => true, fun _ => true, fun ic => ic != 1,
          fun _ => true, fun _ => true, fun _ => true, fun _ => true⟩ 0
          freshRepl).2).1 = some 1) ∧
    (evaluateMultiple ⟨fun _ => true, fun _ => true, fun ic => ic != 1,
        fun _ => true, fun _ => true, fun _ => true, fun _ => true⟩
      (initializeRepl ⟨fun _ => true, fun _ => true, fun ic => ic != 1,
        fun _ => true, fun _ => true, fun _ => true, fun _ => true⟩ 0
        freshRepl).2 ["a", "b", "c"]).1 =
      (seqEval ⟨fun _ => true, fun _ => true, fun ic => ic != 1,
        fun _ => true, fun _ => true, fun _ => true, fun _ => true⟩
        ["a", "b", "c"]
        (initializeRepl ⟨fun _ => true, fun _ => true, fun ic => ic != 1,
          fun _ => true, fun _ => true, fun _ => true, fun _ => true⟩ 0
          freshRepl).2).1.take 2 ++
        List.replicate 1 stoppedResult := by
  refine ⟨⟨rfl, by decide⟩, ?_⟩
  have h := ((evaluateMultiple_stops_at_first_failure
    ⟨fun _ => true, fun _ => true, fun ic => ic != 1,
     fun _ => true, fun _ => true, fun _ => true, fun _ => true⟩
    ["a", "b", "c"]
    (initializeRepl ⟨fun _ => true, fun _ => true, fun ic => ic != 1,
      fun _ => true, fun _ => true, fun _ => true, fun _ => true⟩ 0
      freshRepl).2 rfl).2.2 1 (by decide)).1
  simpa using h

/-! ## Injectivity of `Nat.repr` (for fragment-name reasoning)

`std::to_string` on `size_t` is modelled by `Nat.repr`; distinctness of
generated names needs its injectivity, proved here via the base-10
value of the printed digit list. -/

/-- Base-10 value of a digit string (left fold, inverse of printing). -/
def digitsVal (l : List Char) : Nat :=
  l.foldl (fun a c => 10 * a + (c.toNat - 48)) 0

theorem digitsVal_append (l : List Char) (c : Char) :
    digitsVal (l ++ [c]) = 10 * digitsVal l + (c.toNat - 48) := by
  unfold digitsVal
  rw [List.foldl_append]
  rfl

theorem digitChar_val {d : Nat} (h : d < 10) :
    (Nat.digitChar d).toNat - 48 = d := by
  interval_cases d <;> decide

theorem toDigitsCore_append :
    ∀ (fuel n : Nat) (acc : List Char), n < fuel →
      Nat.toDigitsCore 10 fuel n acc = Nat.toDigitsCore 10 (n + 1) n [] ++ acc := by
  intro fuel
  induction fuel using Nat.strong_induction_on with
  | _ fuel ih =>
    intro n acc hn
    match fuel, hn with
    | fuel + 1, hn =>
      by_cases h0 : n / 10 = 0
      · simp only [Nat.toDigitsCore, h0, if_pos]
        rfl
      · simp only [Nat.toDigitsCore, h0, if_neg, if_false]
        have hdiv : n / 10 < n :=
          Nat.div_lt_self (by omega) (by omega)
        rw [ih fuel (by omega) (n / 10) _ (by omega)]
        rw [ih n (by omega) (n / 10) _ (by omega)]
        simp

theorem digitsVal_toDigits : ∀ n : Nat, digitsVal (Nat.toDigits 10 n) = n := by
  intro n
  induction n using Nat.strong_induction_on with
  | _ n ih =>
    by_cases h0 : n / 10 = 0
    · have hn : n < 10 := (Nat.div_eq_zero_iff (by omega)).mp h0
      unfold Nat.toDigits
      simp only [Nat.toDigitsCore, h0, if_pos]
      show digitsVal [Nat.digitChar (n % 10)] = n
      unfold digitsVal
      simp only [List.foldl_cons, List.foldl_nil, Nat.mul_zero, Nat.zero_add]
      rw [digitChar_val (Nat.mod_lt _ (by omega))]
      exact Nat.mod_eq_of_lt hn
    · have hdiv : n / 10 < n := Nat.div_lt_self (by omega) (by omega)
      unfold Nat.toDigits
      simp only [Nat.toDigitsCore, h0, if_neg, if_false]
      rw [toDigitsCore_append n (n / 10) _ (by omega)]
      show digitsVal (Nat.toDigits 10 (n / 10) ++ [Nat.digitChar (n % 10)]) = n
      rw [digitsVal_append, ih (n / 10) hdiv,
          digitChar_val (Nat.mod_lt _ (by omega))]
      omega

theorem Nat_repr_inj {m n : Nat} (h : Nat.repr m = Nat.repr n) : m = n := by
  have hd : Nat.toDigits 10 m = Nat.toDigits 10 n := by
    have hdata := congrArg String.data h
    simpa [Nat.repr, List.asString] using hdata
  have hv := congrArg digitsVal hd
  rwa [digitsVal_toDigits, digitsVal_toDigits] at hv

/-- The fragment-name generator is injective. -/
theorem evalName_inj : Function.Injective evalName := by
  intro m n h
  unfold evalName at h
  have hd := congrArg String.data h
  simp only [String.data_append] at hd
  exact Nat_repr_inj (String.ext (List.append_cancel_left hd))

/-! ## C9: fragment-name uniqueness -/

/-- Run a list of raw `Parse` submissions through one session. -/
def parseRun (o : Oracle) : List String → SwiftIncrementalParser →
    SwiftIncrementalParser
  | [], ps => ps
  | c :: rest, ps => parseRun o rest (Parse o ps c).2

/-- Invariant tying recorded fragment names to strictly increasing
seeds bounded by the module-list length. -/
def namesOk (ps : SwiftIncrementalParser) : Prop :=
  ∃ seeds : List Nat,
    ps.PTUs.map (·.ModulePart) = seeds.map (fun s => some (evalName s)) ∧
    seeds.Pairwise (· < ·) ∧
    ∀ s ∈ seeds, s < ps.modules.length

theorem Parse_namesOk (o : Oracle) (ps : SwiftIncrementalParser)
    (input : String) (h : namesOk ps) : namesOk (Parse o ps input).2 := by
  obtain ⟨seeds, h1, h2, h3⟩ := h
  unfold Parse
  by_cases hsetup : o.parseSetupOk ps.InputCount = false
  · rw [if_pos hsetup]
    refine ⟨seeds, h1, h2, fun s hs => ?_⟩
    have := h3 s hs
    simp only [List.length_append, List.length_cons, List.length_nil]
    omega
  · rw [if_neg hsetup]
    by_cases hsema : o.semaOk ps.InputCount = false
    · rw [if_pos hsema]
      refine ⟨seeds, h1, h2, fun s hs => ?_⟩
      have := h3 s hs
      simp only [List.length_append, List.length_cons, List.length_nil]
      omega
    · rw [if_neg hsema]
      refine ⟨seeds ++ [ps.modules.length], ?_, ?_, ?_⟩
      · simp only [List.map_append, h1, List.map_cons, List.map_nil]
      · rw [List.pairwise_append]
        exact ⟨h2, List.pairwise_singleton _ _,
          fun a ha b hb => by
            simp only [List.mem_singleton] at hb
            subst hb
            exact h3 a ha⟩
      · intro s hs
        simp only [List.length_append, List.length_cons, List.length_nil]
        rcases List.mem_append.mp hs with hl | hr
        · have := h3 s hl
          omega
        · simp only [List.mem_singleton] at hr
          omega

theorem parseRun_namesOk (o : Oracle) :
    ∀ (codes : List String) (ps : SwiftIncrementalParser),
      namesOk ps → namesOk (parseRun o codes ps)
  | [], _, h => h
  | _ :: rest, ps, h =>
    parseRun_namesOk o rest (Parse o _ _).2 (Parse_namesOk o ps _ h)

/-- C9 amended: within a single session (no reset), the fragment names
of the recorded compilation units never collide: after any sequence of
submissions (successful or not) starting from a fresh interpreter, the
`ModulePart` names of the PTU list are pairwise distinct.  (Across
`reset()` the claim fails — see the counterexample: names restart at
`Evaluation_1`.) -/
theorem fragment_names_distinct_within_session (o : Oracle)
    (codes : List String) :
    ((parseRun o codes freshInterp.parser).PTUs.map (·.ModulePart)).Nodup := by
  have h : namesOk (parseRun o codes freshInterp.parser) :=
    parseRun_namesOk o codes freshInterp.parser
      ⟨[], by simp [freshInterp], List.Pairwise.nil, by simp⟩
  obtain ⟨seeds, h1, h2, _⟩ := h
  rw [h1]
  refine List.Nodup.map ?_ (h2.imp Nat.ne_of_lt)
  intro a b hab
  simp only [Option.some.injEq] at hab
  exact evalName_inj hab

/-- Counterexample to C9: two sessions separated by `reset()` within the
same clock tick (`now = 5` both times).  Both sessions accept their
first user submission successfully, and both record the *same* fragment
name `Evaluation_1` — the per-session `modules` list restarts, so the
name space is not injective across resets. -/
theorem fragment_names_collide_across_reset_cex :
    (evaluate oracleAllOk (initializeRepl oracleAllOk 5 freshRepl).2
      "let x = 1").1.success = true ∧
    (evaluate oracleAllOk
      (resetRepl oracleAllOk 5
        (evaluate oracleAllOk (initializeRepl oracleAllOk 5 freshRepl).2
          "let x = 1").2).2 "let x = 1").1.success = true ∧
    ((evaluate oracleAllOk (initializeRepl oracleAllOk 5 freshRepl).2
        "let x = 1").2.interp.getD freshInterp).parser.PTUs.map
      (·.ModulePart) = [some (evalName 1)] ∧
    ((evaluate oracleAllOk
        (resetRepl oracleAllOk 5
          (evaluate oracleAllOk (initializeRepl oracleAllOk 5 freshRepl).2
            "let x = 1").2).2 "let x = 1").2.interp.getD
        freshInterp).parser.PTUs.map (·.ModulePart) = [some (evalName 1)] := by
  refine ⟨rfl, rfl, by decide, by decide⟩

/-! ## C10: statistics accounting -/

/-- The statistics ledger balances. -/
def statsInv (st : SwiftJITREPLImpl) : Prop :=
  st.stats.total_expressions =
    st.stats.successful_compilations + st.stats.failed_compilations

/-- An initialized REPL holds an interpreter. -/
def interpInv (st : SwiftJITREPLImpl) : Prop :=
  st.initialized = true → st.interp.isSome

/-- Helper: the three possible statistics effects of one `evaluate`. -/
theorem evaluate_stats (o : Oracle) (st : SwiftJITREPLImpl) (e : String) :
    (st.initialized = false → (evaluate o st e).2.stats = st.stats) ∧
    (st.initialized = true → st.interp = none →
      (evaluate o st e).2.stats = st.stats) ∧
    (st.initialized = true → ∀ ist, st.interp = some ist →
      (evaluate o st e).2.stats.total_expressions =
        st.stats.total_expressions + 1 ∧
      ((evaluate o st e).2.stats.successful_compilations =
          st.stats.successful_compilations + 1 ∧
        (evaluate o st e).2.stats.failed_compilations =
          st.stats.failed_compilations ∨
       (evaluate o st e).2.stats.failed_compilations =
          st.stats.failed_compilations + 1 ∧
        (evaluate o st e).2.stats.successful_compilations =
          st.stats.successful_compilations)) := by
  refine ⟨?_, ?_, ?_⟩
  · intro h
    unfold evaluate
    rw [if_pos h]
  · intro h hn
    unfold evaluate
    rw [if_neg (by rw [h]; simp), hn]
  · intro h ist hs
    unfold evaluate
    rw [if_neg (by rw [h]; simp), hs]
    cases hp : (ParseAndExecute o ist e).1 <;> simp [hp]

theorem evaluate_statsInv (o : Oracle) (st : SwiftJITREPLImpl) (e : String)
    (h : statsInv st) : statsInv (evaluate o st e).2 := by
  obtain ⟨h1, h2, h3⟩ := evaluate_stats o st e
  unfold statsInv at *
  by_cases hi : st.initialized = false
  · rw [h1 hi]
    exact h
  · have hi2 : st.initialized = true := by
      revert hi
      cases st.initialized <;> simp
    cases hs : st.interp with
    | none =>
      rw [h2 hi2 hs]
      exact h
    | some ist =>
      obtain ⟨ht, hrest⟩ := h3 hi2 ist hs
      rcases hrest with ⟨a, b⟩ | ⟨a, b⟩ <;> omega

theorem evalLoop_statsInv (o : Oracle) :
    ∀ (es : List String) (st : SwiftJITREPLImpl),
      statsInv st → statsInv (evalLoop o es st).2 := by
  intro es
  induction es with
  | nil =>
    intro st h
    exact h
  | cons e rest ih =>
    intro st h
    simp only [evalLoop]
    split
    · exact ih _ (evaluate_statsInv o st e h)
    · exact evaluate_statsInv o st e h

theorem initializeRepl_stats (o : Oracle) (now : Nat) (st : SwiftJITREPLImpl) :
    (initializeRepl o now st).2.stats = st.stats := by
  unfold initializeRepl
  split <;> split <;> rfl

theorem resetRepl_stats (o : Oracle) (now : Nat) (st : SwiftJITREPLImpl) :
    (resetRepl o now st).2.stats = ⟨0, 0, 0⟩ := by
  unfold resetRepl
  rw [initializeRepl_stats]

theorem step_statsInv (o : Oracle) (st : SwiftJITREPLImpl) (op : ReplOp)
    (h : statsInv st) : statsInv (step o st op) := by
  cases op with
  | evalOne e => exact evaluate_statsInv o st e h
  | evalMany es =>
    show statsInv (evaluateMultiple o st es).2
    unfold evaluateMultiple
    split
    · exact h
    · exact evalLoop_statsInv o es st h
  | doReset now =>
    show statsInv (resetRepl o now st).2
    unfold statsInv
    rw [resetRepl_stats]
    rfl

theorem runOps_statsInv (o : Oracle) :
    ∀ (ops : List ReplOp) (st : SwiftJITREPLImpl),
      statsInv st → statsInv (runOps o ops st) := by
  intro ops
  induction ops with
  | nil =>
    intro st h
    exact h
  | cons op rest ih =>
    intro st h
    exact ih _ (step_statsInv o st op h)

theorem evaluate_interpInv (o : Oracle) (st : SwiftJITREPLImpl) (e : String)
    (h : interpInv st) : interpInv (evaluate o st e).2 := by
  intro hi
  rw [evaluate_initialized] at hi
  have hsome := h hi
  cases hs : st.interp with
  | none =>
    rw [hs] at hsome
    simp at hsome
  | some ist =>
    unfold evaluate
    rw [if_neg (by rw [hi]; simp), hs]
    cases hp : (ParseAndExecute o ist e).1 <;> simp [hp]

theorem evalLoop_interpInv (o : Oracle) :
    ∀ (es : List String) (st : SwiftJITREPLImpl),
      interpInv st → interpInv (evalLoop o es st).2 := by
  intro es
  induction es with
  | nil =>
    intro st h
    exact h
  | cons e rest ih =>
    intro st h
    simp only [evalLoop]
    split
    · exact ih _ (evaluate_interpInv o st e h)
    · exact evaluate_interpInv o st e h

theorem initializeRepl_interpInv (o : Oracle) (now : Nat)
    (st : SwiftJITREPLImpl) (h : interpInv st) :
    interpInv (initializeRepl o now st).2 := by
  unfold interpInv
  by_cases hc : o.ciSetupOk st.initCalls = false
  · have heq : (initializeRepl o now st).2.initialized = st.initialized ∧
        (initializeRepl o now st).2.interp = st.interp := by
      simp only [initializeRepl]
      rw [if_pos hc]
      exact ⟨rfl, rfl⟩
    rw [heq.1, heq.2]
    exact h
  · have heq : (initializeRepl o now st).2.interp = some freshInterp := by
      simp only [initializeRepl]
      rw [if_neg hc]
    rw [heq]
    intro _
    rfl

theorem step_interpInv (o : Oracle) (st : SwiftJITREPLImpl) (op : ReplOp)
    (h : interpInv st) : interpInv (step o st op) := by
  cases op with
  | evalOne e => exact evaluate_interpInv o st e h
  | evalMany es =>
    show interpInv (evaluateMultiple o st es).2
    unfold evaluateMultiple
    split
    · exact h
    · exact evalLoop_interpInv o es st h
  | doReset now =>
    exact initializeRepl_interpInv o now _ (fun hi => by simp at hi)

theorem runOps_interpInv (o : Oracle) :
    ∀ (ops : List ReplOp) (st : SwiftJITREPLImpl),
      interpInv st → interpInv (runOps o ops st) := by
  intro ops
  induction ops with
  | nil =>
    intro st h
    exact h
  | cons op rest ih =>
    intro st h
    exact ih _ (step_interpInv o st op h)

/-- C10: statistics accounting.  (1) After any sequence of `evaluate`,
`evaluateMultiple` and `reset` calls on a freshly constructed REPL,
`total_expressions = successful_compilations + failed_compilations`.
(2) One further `evaluate` on such a state, when it is initialized,
increments `total_expressions` by exactly one together with exactly one
of the other two counters.  (3) `evaluate` on an uninitialized REPL
leaves the counters unchanged.  (4) `reset()` zeroes every counter. -/
theorem stats_accounting :
    (∀ (o : Oracle) (ops : List ReplOp),
      (runOps o ops freshRepl).stats.total_expressions =
        (runOps o ops freshRepl).stats.successful_compilations +
          (runOps o ops freshRepl).stats.failed_compilations) ∧
    (∀ (o : Oracle) (ops : List ReplOp) (e : String),
      (runOps o ops freshRepl).initialized = true →
      (evaluate o (runOps o ops freshRepl) e).2.stats.total_expressions =
        (runOps o ops freshRepl).stats.total_expressions + 1 ∧
      ((evaluate o (runOps o ops freshRepl) e).2.stats.successful_compilations =
          (runOps o ops freshRepl).stats.successful_compilations + 1 ∧
        (evaluate o (runOps o ops freshRepl) e).2.stats.failed_compilations =
          (runOps o ops freshRepl).stats.failed_compilations ∨
       (evaluate o (runOps o ops freshRepl) e).2.stats.failed_compilations =
          (runOps o ops freshRepl).stats.failed_compilations + 1 ∧
        (evaluate o (runOps o ops freshRepl) e).2.stats.successful_compilations =
          (runOps o ops freshRepl).stats.successful_compilations)) ∧
    (∀ (o : Oracle) (st : SwiftJITREPLImpl) (e : String),
      st.initialized = false → (evaluate o st e).2.stats = st.stats) ∧
    (∀ (o : Oracle) (now : Nat) (st : SwiftJITREPLImpl),
      (resetRepl o now st).2.stats = ⟨0, 0, 0⟩) := by
  refine ⟨?_, ?_, ?_, ?_⟩
  · intro o ops
    exact runOps_statsInv o ops freshRepl rfl
  · intro o ops e hinit
    have hsome := runOps_interpInv o ops freshRepl
      (fun hi => by simp [freshRepl] at hi) hinit
    obtain ⟨ist, hist⟩ := Option.isSome_iff_exists.mp hsome
    exact (evaluate_stats o (runOps o ops freshRepl) e).2.2 hinit ist hist
  · intro o st e h
    exact (evaluate_stats o st e).1 h
  · intro o now st
    exact resetRepl_stats o now st

/-- Witness for C10: after one `reset` (which initializes the REPL) an
`evaluate` increments the counters as claimed, and the reset state has
zeroed counters. -/
theorem stats_accounting_witness :
    ((runOps oracleAllOk [ReplOp.doReset 0] freshRepl).initialized = true ∧
      freshRepl.initialized = false) ∧
    (evaluate oracleAllOk (runOps oracleAllOk [ReplOp.doReset 0] freshRepl)
        "x").2.stats.total_expressions =
      (runOps oracleAllOk [ReplOp.doReset 0] freshRepl).stats.total_expressions
        + 1 ∧
    (evaluate oracleAllOk freshRepl "x").2.stats = freshRepl.stats ∧
    (resetRepl oracleAllOk 0 freshRepl).2.stats = ⟨0, 0, 0⟩ :=
  ⟨⟨rfl, rfl⟩,
   (stats_accounting.2.1 oracleAllOk [ReplOp.doReset 0] "x" rfl).1,
   stats_accounting.2.2.1 oracleAllOk freshRepl "x" rfl,
   stats_accounting.2.2.2 oracleAllOk 0 freshRepl⟩

end SwiftJITREPLModel
